import Mathlib

/- Shallow embedding of the decor installer (Go sources:
   src/models/downloadinstall.go, src/downloadinstall.go, src/main.go).
   Pure data and functions mirror the Go code directly; the Bubble Tea
   message loop is modelled further below by an explicit step relation on a
   system state that tracks the orchestrator model together with the pending
   asynchronous messages.  External commands are inputs of the embedding:
   an Option String whose value encodes the command outcome (documented at
   each definition).

   Go's strings.ToLower, strings.Split and strings.TrimSpace are embedded as
   the character-list functions toLowerStr, splitLines and trimString below,
   which have the same semantics on the inputs that occur here; the library
   String.toLower, String.splitOn and String.trim are avoided only because
   their iterator-based implementations do not reduce in the kernel. -/

/-- Embedding of Go strings.ToLower: lower-case every character. -/
def toLowerStr (s : String) : String := ⟨s.data.map Char.toLower⟩

/-- Helper for splitLines: split a character list at every occurrence of the
    separator character, keeping empty fields, like Go strings.Split with a
    one-character separator.  acc holds the current field, reversed. -/
def splitOnCharAux (c : Char) : List Char → List Char → List String
  | [], acc => [⟨acc.reverse⟩]
  | x :: xs, acc =>
      if x = c then ⟨acc.reverse⟩ :: splitOnCharAux c xs []
      else splitOnCharAux c xs (x :: acc)

/-- Embedding of Go strings.Split(s, "\n"). -/
def splitLines (s : String) : List String := splitOnCharAux '\n' s.data []

/-- Embedding of Go strings.TrimSpace: drop leading and trailing whitespace. -/
def trimString (s : String) : String :=
  ⟨((s.data.dropWhile Char.isWhitespace).reverse.dropWhile Char.isWhitespace).reverse⟩

/-- Mirror of the Go struct InstallationStatus. -/
structure InstallationStatus where
  language : String
  installed : Bool
  version : String
  latestVersion : String
  error : String
  deriving DecidableEq

/-- Mirror of the Go struct LanguageProgress.  The sync.Mutex field is
    elided; the writes the Go code performs while holding the mutex are
    tagged via TrackerWrite.locked below.  The float64 progress field is
    modelled as an exact rational; every value the code stores (i/3 for
    i = 0,1,2, and 1.0) rounds in float64 to a value strictly between 0 and 1
    exactly when the rational is, so every comparison with 1.0 made by the
    code coincides with the rational one. -/
structure LanguageProgress where
  language : String
  progress : ℚ
  currentStep : String
  totalSteps : Nat
  currentStepNum : Nat
  errorMessage : String
  deriving DecidableEq

/-- Lookup in an association list: a Go map read returning (value, ok). -/
def lookupA {α : Type} : List (String × α) → String → Option α
  | [], _ => none
  | (k, v) :: t, key => if k = key then some v else lookupA t key

/-- Go map read, with the type's zero value as the default for a missing key. -/
def lookupD {α : Type} (l : List (String × α)) (key : String) (dflt : α) : α :=
  (lookupA l key).getD dflt

/-- Go map assignment: replace the binding if the key is present, otherwise
    append a new one. -/
def insertA {α : Type} : List (String × α) → String → α → List (String × α)
  | [], key, v => [(key, v)]
  | (k, w) :: t, key, v =>
      if k = key then (key, v) :: t else (k, w) :: insertA t key v

/-- Go getDefaultChoice (the function is identical in
    src/models/downloadinstall.go and src/downloadinstall.go). -/
def getDefaultChoice (status : InstallationStatus) : String :=
  if !status.installed then "install"
  else if status.version ≠ status.latestVersion then "update"
  else "skip"

/-- Go parseVersion: the first line of the combined output, trimmed.  The
    language argument is unused, as in the source. -/
def parseVersion (output : String) (_language : String) : String :=
  match splitLines output with
  | [] => "unknown"
  | line :: _ => trimString line

/-- Go getLatestVersion: the static latest-version table, keyed by the
    lower-cased id; a key that is absent yields the Go zero value "". -/
def getLatestVersion (language : String) : String :=
  lookupD [("go", "1.25.5"), ("python", "3.13.0"), ("rust", "1.81.0"),
           ("c++", "14"), ("java", "21")] (toLowerStr language) ""

/-- The languages for which checkLanguageInstallation has a detection
    command (the switch in the Go source; the c++ arm picks clang or g++ by
    operating system, which does not affect the returned data). -/
def probeCommandDefined (language : String) : Bool :=
  let key := toLowerStr language
  key = "go" || key = "python" || key = "rust" || key = "c++" || key = "java"

/-- Go checkLanguageInstallation.  The detection command execution is an
    input of the embedding: none models a failure to execute or a
    non-success exit status, some out models success with combined output
    out. -/
def checkLanguageInstallation (language : String) (cmdOutput : Option String) :
    Bool × String × String :=
  if probeCommandDefined language then
    match cmdOutput with
    | none => (false, "", "")
    | some output => (true, parseVersion output language, getLatestVersion language)
  else (false, "", "")

/-- Go checkInstalledLanguages: builds the status map that is sent as
    InstallationStatusMsg; note that the Error field is never set. -/
def checkInstalledLanguages (languages : List String)
    (env : String → Option String) : List (String × InstallationStatus) :=
  languages.map (fun lang =>
    let r := checkLanguageInstallation lang (env lang)
    (lang, ⟨lang, r.1, r.2.1, r.2.2, ""⟩))

/-- Helper fact: parseVersion returns the trimmed first line whenever the
    split has a first line (the "unknown" fallback of the source is dead
    code, since a split always yields at least one field). -/
theorem parseVersion_firstLine (output language line : String) (rest : List String)
    (h : splitLines output = line :: rest) :
    parseVersion output language = trimString line := by
  unfold parseVersion
  rw [h]

/-- C5: the confirm-default decision mapping.  Not installed defaults to
    install; installed with a stale version defaults to update; installed and
    current defaults to skip. -/
theorem defaultChoiceSpec (st : InstallationStatus) :
    (st.installed = false → getDefaultChoice st = "install")
    ∧ (st.installed = true → st.version ≠ st.latestVersion →
        getDefaultChoice st = "update")
    ∧ (st.installed = true → st.version = st.latestVersion →
        getDefaultChoice st = "skip") := by
  refine ⟨fun h => ?_, fun h hne => ?_, fun h he => ?_⟩
  · simp [getDefaultChoice, h]
  · simp [getDefaultChoice, h, hne]
  · simp [getDefaultChoice, h, he]

/-- Witness for C5 at the stale-version scenario from the spec. -/
theorem defaultChoiceSpecWitness :
    (InstallationStatus.mk "go" true "1.20" "1.25.5" "").installed = true
    ∧ (InstallationStatus.mk "go" true "1.20" "1.25.5" "").version ≠
        (InstallationStatus.mk "go" true "1.20" "1.25.5" "").latestVersion
    ∧ getDefaultChoice (InstallationStatus.mk "go" true "1.20" "1.25.5" "") = "update" :=
  ⟨rfl, by decide,
    (defaultChoiceSpec (InstallationStatus.mk "go" true "1.20" "1.25.5" "")).2.1
      rfl (by decide)⟩

/-- C6: the version probe never surfaces an error.  A failed or non-success
    detection command yields installed = false with empty version fields, as
    does a language with no detection command; on success the installed
    version is exactly the trimmed first line of the combined output and the
    latest version comes from the static table; a language outside the table
    gets an empty latest version; and the Error field of every produced
    InstallationStatus is empty. -/
theorem versionProbeContract :
    (∀ language, checkLanguageInstallation language none = (false, "", ""))
    ∧ (∀ language r, probeCommandDefined language = false →
        checkLanguageInstallation language r = (false, "", ""))
    ∧ (∀ language out line rest, probeCommandDefined language = true →
        splitLines out = line :: rest →
        checkLanguageInstallation language (some out)
          = (true, trimString line, getLatestVersion language))
    ∧ (∀ language, probeCommandDefined language = false →
        getLatestVersion language = "")
    ∧ (∀ languages env p, p ∈ checkInstalledLanguages languages env →
        p.2.error = "") := by
  refine ⟨fun language => ?_, fun language r h => ?_, fun language out line rest h hsplit => ?_,
    fun language h => ?_, fun languages env p hp => ?_⟩
  · unfold checkLanguageInstallation
    split <;> rfl
  · simp [checkLanguageInstallation, h]
  · simp [checkLanguageInstallation, h, parseVersion_firstLine out language line rest hsplit]
  · simp only [probeCommandDefined, Bool.or_eq_false_iff,
      decide_eq_false_iff_not] at h
    obtain ⟨⟨⟨⟨h1, h2⟩, h3⟩, h4⟩, h5⟩ := h
    simp [getLatestVersion, lookupD, lookupA, Ne.symm h1, Ne.symm h2,
      Ne.symm h3, Ne.symm h4, Ne.symm h5]
  · unfold checkInstalledLanguages at hp
    obtain ⟨l, _, rfl⟩ := List.mem_map.mp hp
    rfl

/-- Witness for C6: a language with no probe command ("ruby"), and a
    successful probe of "go" with a two-line combined output. -/
theorem versionProbeContractWitness :
    (probeCommandDefined "ruby" = false
      ∧ checkLanguageInstallation "ruby" (some "ruby 3.2") = (false, "", ""))
    ∧ (probeCommandDefined "go" = true
      ∧ splitLines "go version go1.25.5 darwin/arm64\njunk"
          = ["go version go1.25.5 darwin/arm64", "junk"]
      ∧ checkLanguageInstallation "go" (some "go version go1.25.5 darwin/arm64\njunk")
          = (true, trimString "go version go1.25.5 darwin/arm64", getLatestVersion "go")) :=
  ⟨⟨by decide, versionProbeContract.2.1 "ruby" (some "ruby 3.2") (by decide)⟩,
   ⟨by decide, by decide,
    versionProbeContract.2.2.1 "go" "go version go1.25.5 darwin/arm64\njunk"
      "go version go1.25.5 darwin/arm64" ["junk"] (by decide) (by decide)⟩⟩

/-- One mutation of a LanguageProgress tracker: the fields written (none =
    field untouched) and whether the Go code held the tracker's mutex for
    the write. -/
structure TrackerWrite where
  progress : Option ℚ
  step : Option String
  errMsg : Option String
  locked : Bool
  deriving DecidableEq

/-- A write of the step loop: progress and step label, under the lock. -/
def wStep (p : ℚ) (s : String) : TrackerWrite := ⟨some p, some s, none, true⟩

/-- The success write of the worker wrapper (not under the lock). -/
def wComplete : TrackerWrite := ⟨some 1, some "complete", none, false⟩

/-- The failure write of the worker wrapper (not under the lock). -/
def wError (e : String) : TrackerWrite := ⟨none, some "error", some e, false⟩

/-- Observable event of a runner: a tracker write, or the execution of the
    one external install/update command. -/
inductive RunEvent
  | write (w : TrackerWrite)
  | execCmd
  deriving DecidableEq

/-- Recognizer for the writes produced by the step loop: a locked write of a
    progress fraction and a step label, with no error message. -/
def isStepWrite : RunEvent → Bool
  | RunEvent.write w => w.locked && w.progress.isSome && w.step.isSome && w.errMsg.isNone
  | RunEvent.execCmd => false

/-- The step loop shared by every Go runner: before step i it writes
    progress = i/len(steps) and the label of step i, holding the lock. -/
def stepLoop (steps : List String) : List RunEvent :=
  steps.enum.map (fun p =>
    RunEvent.write (wStep ((p.1 : ℚ) / (steps.length : ℚ)) p.2))

/-- The common shape of the Go runner bodies: the step loop, a locked write
    of progress 1.0 carrying the (repeated) literal of the last label, then
    the external command, whose outcome r (none = success, some e = failure
    with cause e) is the returned error. -/
def basicRunner (steps : List String) (lastLabel : String) (r : Option String) :
    List RunEvent × Option String :=
  (stepLoop steps ++ [RunEvent.write (wStep 1 lastLabel), RunEvent.execCmd], r)

def installGoSteps : List String :=
  ["Downloading Go...", "Extracting files...", "Verifying installation..."]

/-- Go installGoWithProgress. -/
def installGoWithProgress (r : Option String) : List RunEvent × Option String :=
  basicRunner installGoSteps "Verifying installation..." r

def installPythonSteps : List String :=
  ["Preparing installation...", "Installing Python...", "Verifying installation..."]

/-- Go installPythonWithProgress (the darwin/linux branch only selects which
    external command runs, which the outcome parameter r already abstracts). -/
def installPythonWithProgress (r : Option String) : List RunEvent × Option String :=
  basicRunner installPythonSteps "Verifying installation..." r

def installRustSteps : List String :=
  ["Downloading Rust installer...", "Running installation script...",
   "Configuring environment..."]

/-- Go installRustWithProgress. -/
def installRustWithProgress (r : Option String) : List RunEvent × Option String :=
  basicRunner installRustSteps "Configuring environment..." r

def installCppSteps : List String :=
  ["Preparing installation...", "Installing C++ compiler...",
   "Setting up environment..."]

/-- Go installCppWithProgress. -/
def installCppWithProgress (r : Option String) : List RunEvent × Option String :=
  basicRunner installCppSteps "Setting up environment..." r

def installJavaSteps : List String :=
  ["Preparing installation...", "Installing OpenJDK...", "Setting up environment..."]

/-- Go installJavaWithProgress. -/
def installJavaWithProgress (r : Option String) : List RunEvent × Option String :=
  basicRunner installJavaSteps "Setting up environment..." r

def updateGoSteps : List String :=
  ["Checking latest version...", "Downloading Go...", "Installing update..."]

/-- Go updateGoWithProgress: its own step loop and final write, then a
    delegation to installGoWithProgress (which repeats that runner's loop
    before the external command). -/
def updateGoWithProgress (r : Option String) : List RunEvent × Option String :=
  let tail := installGoWithProgress r
  (stepLoop updateGoSteps ++ [RunEvent.write (wStep 1 "Installing update...")]
     ++ tail.1, tail.2)

def updatePythonSteps : List String :=
  ["Fetching available updates...", "Upgrading Python...", "Verifying update..."]

/-- Go updatePythonWithProgress. -/
def updatePythonWithProgress (r : Option String) : List RunEvent × Option String :=
  basicRunner updatePythonSteps "Verifying update..." r

def updateRustSteps : List String :=
  ["Checking for updates...", "Updating Rust...", "Verifying update..."]

/-- Go updateRustWithProgress. -/
def updateRustWithProgress (r : Option String) : List RunEvent × Option String :=
  basicRunner updateRustSteps "Verifying update..." r

def updateCppSteps : List String :=
  ["Checking for system updates...", "Installing updates...", "Verifying..."]

/-- Go updateCppWithProgress. -/
def updateCppWithProgress (r : Option String) : List RunEvent × Option String :=
  basicRunner updateCppSteps "Verifying..." r

def updateJavaSteps : List String :=
  ["Fetching available updates...", "Upgrading OpenJDK...", "Verifying update..."]

/-- Go updateJavaWithProgress. -/
def updateJavaWithProgress (r : Option String) : List RunEvent × Option String :=
  basicRunner updateJavaSteps "Verifying update..." r

/-- Go installLanguageWithProgress: string-keyed dispatch on the lower-cased
    id; an id with no runner yields the "unsupported language" error. -/
def installLanguageWithProgress (language : String) (r : Option String) :
    List RunEvent × Option String :=
  let key := toLowerStr language
  if key = "go" then installGoWithProgress r
  else if key = "python" then installPythonWithProgress r
  else if key = "rust" then installRustWithProgress r
  else if key = "c++" then installCppWithProgress r
  else if key = "java" then installJavaWithProgress r
  else ([], some ("unsupported language: " ++ language))

/-- Go updateLanguageWithProgress: same dispatch for the update runners. -/
def updateLanguageWithProgress (language : String) (r : Option String) :
    List RunEvent × Option String :=
  let key := toLowerStr language
  if key = "go" then updateGoWithProgress r
  else if key = "python" then updatePythonWithProgress r
  else if key = "rust" then updateRustWithProgress r
  else if key = "c++" then updateCppWithProgress r
  else if key = "java" then updateJavaWithProgress r
  else ([], some ("unsupported language: " ++ language))

/-- The languages whose dispatch has a runner (both dispatchers switch on
    the same five lower-cased ids). -/
def runnerDefined (language : String) : Bool :=
  let key := toLowerStr language
  key = "go" || key = "python" || key = "rust" || key = "c++" || key = "java"

/-- The per-language worker goroutine body in
    installSelectedLanguagesWithProgress: run the chosen action's runner,
    then record the result and write the terminal tracker state ("error"
    plus the message on failure, "complete" plus progress 1.0 on success).
    A choice other than install/update spawns a worker that does nothing
    and records no result (modelled as none). -/
def workerRun (language choice : String) (r : Option String) :
    List RunEvent × Option String :=
  if choice = "install" then
    let run := installLanguageWithProgress language r
    match run.2 with
    | some e => (run.1 ++ [RunEvent.write (wError e)], some ("error: " ++ e))
    | none => (run.1 ++ [RunEvent.write wComplete], some "installed")
  else if choice = "update" then
    let run := updateLanguageWithProgress language r
    match run.2 with
    | some e => (run.1 ++ [RunEvent.write (wError e)], some ("error: " ++ e))
    | none => (run.1 ++ [RunEvent.write wComplete], some "updated")
  else ([], none)

/-- The terminal write the worker wrapper performs for a command outcome. -/
def finalWrite (r : Option String) : TrackerWrite :=
  match r with
  | none => wComplete
  | some e => wError e

/-- The result string the outer loop plus worker record for one language:
    "skipped" without spawning a worker, otherwise the worker's result. -/
def itemResult (language choice : String) (r : Option String) : Option String :=
  if choice = "skip" then some "skipped"
  else (workerRun language choice r).2

/-- The results map assembled by installSelectedLanguagesWithProgress for a
    whole run, with env giving each language's external command outcome. -/
def installResults (languages : List String) (choices : List (String × String))
    (env : String → Option String) : List (String × Option String) :=
  languages.map (fun l => (l, itemResult l (lookupD choices l "") (env l)))

/-- A fresh tracker as created at the start of Installing. -/
def initTracker (language : String) : LanguageProgress :=
  ⟨language, 0, "starting", 3, 0, ""⟩

/-- Applying one tracker write. -/
def applyWrite (t : LanguageProgress) (w : TrackerWrite) : LanguageProgress :=
  { t with progress := w.progress.getD t.progress,
           currentStep := w.step.getD t.currentStep,
           errorMessage := w.errMsg.getD t.errorMessage }

/-- Applying a whole event trace to a tracker. -/
def applyEvents (t : LanguageProgress) (evs : List RunEvent) : LanguageProgress :=
  evs.foldl (fun acc e => match e with
    | RunEvent.write w => applyWrite acc w
    | RunEvent.execCmd => acc) t

/-- The terminal tracker state of one language's action (none when the item
    is skipped and no tracker-mutating worker runs). -/
def itemTrackerFinal (language choice : String) (r : Option String) :
    Option LanguageProgress :=
  if choice = "skip" then none
  else some (applyEvents (initTracker language) (workerRun language choice r).1)

def supportedLanguages : List String := ["go", "python", "rust", "c++", "java"]

/-- The step list each runner iterates, per language and action. -/
def stepsFor (language action : String) : List String :=
  if action = "install" then
    if language = "go" then installGoSteps
    else if language = "python" then installPythonSteps
    else if language = "rust" then installRustSteps
    else if language = "c++" then installCppSteps
    else installJavaSteps
  else
    if language = "go" then updateGoSteps
    else if language = "python" then updatePythonSteps
    else if language = "rust" then updateRustSteps
    else if language = "c++" then updateCppSteps
    else updateJavaSteps

/-- The i-th element of a step loop is the locked write of progress
    i/len(steps) with step i's label. -/
theorem stepLoop_get (steps : List String) (i : Nat) (h : i < steps.length) :
    (stepLoop steps).get? i
      = some (RunEvent.write
          (wStep ((i : ℚ) / (steps.length : ℚ)) (steps.getD i ""))) := by
  unfold stepLoop
  rw [List.get?_map, List.get?_enum, List.getD_eq_get? steps i]
  rw [List.get?_eq_get h]
  simp

/-- C4: for every supported toolchain and action, the runner's trace is a
    block of step writes followed by the one external command execution and
    the wrapper's terminal write.  The runner's own step list has 3 steps;
    the first three trace events are its step loop, whose i-th write sets
    progress to i/stepCount and currentStep to step i's label under the
    lock; the command's failure ends the trace with the "error" write
    carrying the cause and result "error: cause", success with the
    progress 1.0 / "complete" write and result installed/updated. -/
theorem actionRunnerContract :
    ∀ language ∈ supportedLanguages, ∀ action ∈ ["install", "update"],
    ∀ r : Option String, ∃ pre : List RunEvent,
      (workerRun language action r).1
          = pre ++ [RunEvent.execCmd, RunEvent.write (finalWrite r)]
      ∧ pre.all isStepWrite = true
      ∧ (stepsFor language action).length = 3
      ∧ pre.take 3 = stepLoop (stepsFor language action)
      ∧ (∀ i : Nat, i < 3 →
          (stepLoop (stepsFor language action)).get? i
            = some (RunEvent.write
                (wStep ((i : ℚ) / ((stepsFor language action).length : ℚ))
                  ((stepsFor language action).getD i ""))))
      ∧ (workerRun language action r).2 = some (match r with
          | some e => "error: " ++ e
          | none => if action = "install" then "installed" else "updated") := by
  intro language hlang action haction r
  fin_cases hlang <;> fin_cases haction
  · -- go, install
    rcases r with _ | e <;>
      exact ⟨stepLoop installGoSteps
          ++ [RunEvent.write (wStep 1 "Verifying installation...")],
        rfl, by decide, rfl, rfl, fun i hi => stepLoop_get _ i hi, rfl⟩
  · -- go, update (the update runner delegates to the install runner)
    rcases r with _ | e <;>
      exact ⟨stepLoop updateGoSteps
          ++ [RunEvent.write (wStep 1 "Installing update...")]
          ++ stepLoop installGoSteps
          ++ [RunEvent.write (wStep 1 "Verifying installation...")],
        rfl, by decide, rfl, rfl, fun i hi => stepLoop_get _ i hi, rfl⟩
  · -- python, install
    rcases r with _ | e <;>
      exact ⟨stepLoop installPythonSteps
          ++ [RunEvent.write (wStep 1 "Verifying installation...")],
        rfl, by decide, rfl, rfl, fun i hi => stepLoop_get _ i hi, rfl⟩
  · -- python, update
    rcases r with _ | e <;>
      exact ⟨stepLoop updatePythonSteps
          ++ [RunEvent.write (wStep 1 "Verifying update...")],
        rfl, by decide, rfl, rfl, fun i hi => stepLoop_get _ i hi, rfl⟩
  · -- rust, install
    rcases r with _ | e <;>
      exact ⟨stepLoop installRustSteps
          ++ [RunEvent.write (wStep 1 "Configuring environment...")],
        rfl, by decide, rfl, rfl, fun i hi => stepLoop_get _ i hi, rfl⟩
  · -- rust, update
    rcases r with _ | e <;>
      exact ⟨stepLoop updateRustSteps
          ++ [RunEvent.write (wStep 1 "Verifying update...")],
        rfl, by decide, rfl, rfl, fun i hi => stepLoop_get _ i hi, rfl⟩
  · -- c++, install
    rcases r with _ | e <;>
      exact ⟨stepLoop installCppSteps
          ++ [RunEvent.write (wStep 1 "Setting up environment...")],
        rfl, by decide, rfl, rfl, fun i hi => stepLoop_get _ i hi, rfl⟩
  · -- c++, update
    rcases r with _ | e <;>
      exact ⟨stepLoop updateCppSteps
          ++ [RunEvent.write (wStep 1 "Verifying...")],
        rfl, by decide, rfl, rfl, fun i hi => stepLoop_get _ i hi, rfl⟩
  · -- java, install
    rcases r with _ | e <;>
      exact ⟨stepLoop installJavaSteps
          ++ [RunEvent.write (wStep 1 "Setting up environment...")],
        rfl, by decide, rfl, rfl, fun i hi => stepLoop_get _ i hi, rfl⟩
  · -- java, update
    rcases r with _ | e <;>
      exact ⟨stepLoop updateJavaSteps
          ++ [RunEvent.write (wStep 1 "Verifying update...")],
        rfl, by decide, rfl, rfl, fun i hi => stepLoop_get _ i hi, rfl⟩

/-- Witness for C4 at language go, action install, with a successful
    external command. -/
theorem actionRunnerContractWitness :
    ("go" ∈ supportedLanguages) ∧ ("install" ∈ ["install", "update"])
    ∧ ∃ pre : List RunEvent,
      (workerRun "go" "install" none).1
          = pre ++ [RunEvent.execCmd, RunEvent.write (finalWrite none)]
      ∧ pre.all isStepWrite = true
      ∧ (stepsFor "go" "install").length = 3
      ∧ pre.take 3 = stepLoop (stepsFor "go" "install")
      ∧ (∀ i : Nat, i < 3 →
          (stepLoop (stepsFor "go" "install")).get? i
            = some (RunEvent.write
                (wStep ((i : ℚ) / ((stepsFor "go" "install").length : ℚ))
                  ((stepsFor "go" "install").getD i ""))))
      ∧ (workerRun "go" "install" none).2 = some "installed" :=
  ⟨by decide, by decide,
    actionRunnerContract "go" (by decide) "install" (by decide) none⟩

/-- Looking a key up in a pointwise-built association list finds the entry
    that the builder produced for it. -/
theorem lookupA_map_build {α : Type} (langs : List String) (f : String → α)
    (key : String) :
    lookupA (langs.map (fun l => (l, f l))) key
      = if key ∈ langs then some (f key) else none := by
  induction langs with
  | nil => simp [lookupA]
  | cons a t ih =>
      by_cases h : a = key
      · subst h
        simp [lookupA]
      · simp [lookupA, h, ih, List.mem_cons, Ne.symm h]

/-- Both dispatchers send a language with no runner to the "unsupported
    language" error, with an empty trace. -/
theorem dispatch_unsupported (language : String) (r : Option String)
    (h : runnerDefined language = false) :
    installLanguageWithProgress language r
        = ([], some ("unsupported language: " ++ language))
    ∧ updateLanguageWithProgress language r
        = ([], some ("unsupported language: " ++ language)) := by
  simp only [runnerDefined, Bool.or_eq_false_iff, decide_eq_false_iff_not] at h
  obtain ⟨⟨⟨⟨h1, h2⟩, h3⟩, h4⟩, h5⟩ := h
  constructor
  · simp [installLanguageWithProgress, h1, h2, h3, h4, h5]
  · simp [updateLanguageWithProgress, h1, h2, h3, h4, h5]

/-- C8: a non-skip decision for a toolchain with no runner fails that item
    alone.  Its recorded result is the "unsupported language" error, its
    tracker ends in currentStep "error" with the unsupported-language cause
    as errorMessage, and the result of every other item is untouched by any
    change to the unsupported item's decision or command outcome. -/
theorem unsupportedToolchainIsolation :
    ∀ (languages : List String) (choices : List (String × String))
      (env : String → Option String) (lang : String),
      lang ∈ languages → runnerDefined lang = false →
      (lookupD choices lang "" = "install" ∨ lookupD choices lang "" = "update") →
      (lookupA (installResults languages choices env) lang
          = some (some ("error: " ++ ("unsupported language: " ++ lang))))
      ∧ (itemTrackerFinal lang (lookupD choices lang "") (env lang)
          = some ⟨lang, 0, "error", 3, 0, "unsupported language: " ++ lang⟩)
      ∧ (∀ (choices₂ : List (String × String)) (env₂ : String → Option String),
          (∀ l₂, l₂ ≠ lang → lookupD choices₂ l₂ "" = lookupD choices l₂ ""
                ∧ env₂ l₂ = env l₂) →
          ∀ l₂, l₂ ∈ languages → l₂ ≠ lang →
            lookupA (installResults languages choices₂ env₂) l₂
              = lookupA (installResults languages choices env) l₂) := by
  intro languages choices env lang hmem hrd hchoice
  have hdisp := dispatch_unsupported lang (env lang) hrd
  have hworker : workerRun lang (lookupD choices lang "") (env lang)
      = ([RunEvent.write (wError ("unsupported language: " ++ lang))],
         some ("error: " ++ ("unsupported language: " ++ lang))) := by
    rcases hchoice with h | h <;> rw [h] <;>
      simp [workerRun, hdisp.1, hdisp.2]
  have hskip : lookupD choices lang "" ≠ "skip" := by
    rcases hchoice with h | h <;> rw [h] <;> decide
  refine ⟨?_, ?_, ?_⟩
  · unfold installResults
    rw [lookupA_map_build]
    simp [hmem, itemResult, hskip, hworker]
  · unfold itemTrackerFinal
    rw [if_neg hskip, hworker]
    rfl
  · intro choices₂ env₂ hagree l₂ _ hne
    unfold installResults
    rw [lookupA_map_build, lookupA_map_build]
    have h1 := (hagree l₂ hne).1
    have h2 := (hagree l₂ hne).2
    rw [h1, h2]

/-- Witness for C8: a run of ["go", "ruby"] where both items are decided
    install; ruby has no runner. -/
theorem unsupportedToolchainIsolationWitness :
    ("ruby" ∈ ["go", "ruby"]) ∧ runnerDefined "ruby" = false
    ∧ lookupD [("go", "install"), ("ruby", "install")] "ruby" "" = "install"
    ∧ lookupA (installResults ["go", "ruby"]
          [("go", "install"), ("ruby", "install")] (fun _ => none)) "ruby"
        = some (some "error: unsupported language: ruby")
    ∧ lookupA (installResults ["go", "ruby"]
          [("go", "install"), ("ruby", "install")] (fun _ => none)) "go"
        = some (some "installed") :=
  ⟨by decide, by decide, by decide,
    (unsupportedToolchainIsolation ["go", "ruby"]
      [("go", "install"), ("ruby", "install")] (fun _ => none) "ruby"
      (by decide) (by decide) (Or.inl (by decide))).1,
    by decide⟩

/-- Mirror of the Go struct DownloadInstallModel (the embedded Decor field
    only carries the menu choices and is unused by this model's Update). -/
structure DownloadInstallModel where
  selectedLanguages : List String
  installationStatus : List (String × InstallationStatus)
  currentIndex : Nat
  state : String
  userChoices : List (String × String)
  languageProgress : List (String × LanguageProgress)
  deriving DecidableEq

/-- Go NewDownloadInstallModel: empty maps, index 0, state "checking". -/
def NewDownloadInstallModel (selectedLanguages : List String) : DownloadInstallModel :=
  ⟨selectedLanguages, [], 0, "checking", [], []⟩

/-- The commands the Update function returns to the Bubble Tea runtime
    (tea.Quit, the installSelectedLanguagesWithProgress batch, and the
    progressUpdateTicker tick). -/
inductive Cmd
  | quit
  | installSelected (languages : List String) (choices : List (String × String))
  | tick
  deriving DecidableEq

/-- The messages the Update function handles. -/
inductive Msg
  | key (s : String)
  | installationStatus (status : List (String × InstallationStatus))
  | initProgress (trackers : List (String × LanguageProgress))
  | progressTick
  | progressUpdate (language : String) (progress : ℚ) (step : String)
  | installComplete (results : List (String × String))
  | installErr (language : String) (err : String)

/-- The ProgressTickMsg scan: allComplete stays true unless some tracker has
    progress < 1.0 and currentStep ≠ "error". -/
def tickAllComplete (trackers : List (String × LanguageProgress)) : Bool :=
  trackers.all (fun p => !(decide (p.2.progress < 1) && !(p.2.currentStep == "error")))

/-- The shared tail of the three prompting key handlers: record the choice
    for the language under the cursor, advance the cursor, and on passing
    the last index enter "installing" and launch the install batch. -/
def recordChoice (m : DownloadInstallModel) (lang choice : String) :
    Option (DownloadInstallModel × Option Cmd) :=
  let m' : DownloadInstallModel :=
    { m with userChoices := insertA m.userChoices lang choice,
             currentIndex := m.currentIndex + 1 }
  if m.selectedLanguages.length ≤ m'.currentIndex then
    some ({ m' with state := "installing" },
          some (Cmd.installSelected m.selectedLanguages m'.userChoices))
  else some (m', none)

/-- The tea.KeyMsg case of Update.  A result of none models a Go runtime
    panic: the handlers index selectedLanguages[currentIndex] (out of range
    when the cursor is past the end) and the y/enter handler dereferences
    the possibly-nil installationStatus map entry inside getDefaultChoice. -/
def handleKey (m : DownloadInstallModel) (k : String) :
    Option (DownloadInstallModel × Option Cmd) :=
  if k = "ctrl+c" ∨ k = "q" then some (m, some Cmd.quit)
  else if k = "y" ∨ k = "enter" then
    if m.state = "prompting" then
      (m.selectedLanguages.get? m.currentIndex).bind (fun lang =>
        (lookupA m.installationStatus lang).bind (fun st =>
          recordChoice m lang (getDefaultChoice st)))
    else some (m, none)
  else if k = "n" then
    if m.state = "prompting" then
      (m.selectedLanguages.get? m.currentIndex).bind (fun lang =>
        recordChoice m lang "skip")
    else some (m, none)
  else if k = "u" then
    if m.state = "prompting" then
      (m.selectedLanguages.get? m.currentIndex).bind (fun lang =>
        recordChoice m lang "update")
    else some (m, none)
  else some (m, none)

/-- Go DownloadInstallModel.Update (src/models/downloadinstall.go).  Returns
    the new model and the command handed to the runtime; none models a
    panic. -/
def update (m : DownloadInstallModel) (msg : Msg) :
    Option (DownloadInstallModel × Option Cmd) :=
  match msg with
  | Msg.key k => handleKey m k
  | Msg.installationStatus st =>
      some ({ m with installationStatus := st, state := "prompting" }, none)
  | Msg.initProgress trackers =>
      some ({ m with languageProgress := trackers }, some Cmd.tick)
  | Msg.progressTick =>
      if tickAllComplete m.languageProgress then
        some ({ m with state := "complete" }, none)
      else some (m, some Cmd.tick)
  | Msg.progressUpdate lang p s =>
      match lookupA m.languageProgress lang with
      | some t =>
          let upd : List (String × LanguageProgress) :=
            insertA m.languageProgress lang
              { t with progress := p, currentStep := s }
          some ({ m with languageProgress := upd }, some Cmd.tick)
      | none => some (m, some Cmd.tick)
  | Msg.installComplete _ => some ({ m with state := "complete" }, none)
  | Msg.installErr _ _ => some (m, none)

/-- The model component of one poll tick (the tick handler never panics). -/
def tickStep (m : DownloadInstallModel) : DownloadInstallModel :=
  match update m Msg.progressTick with
  | some (m', _) => m'
  | none => m

/-- A concrete reachable Installing-state model: the go worker has reached
    the write of progress 1.0 with step "Verifying installation..." that
    installGoWithProgress performs just before its external command. -/
def installingVerifySample : DownloadInstallModel :=
  ⟨["go"], [], 1, "installing", [("go", "install")],
   [("go", ⟨"go", 1, "Verifying installation...", 3, 0, ""⟩)]⟩

/-- Counterexample to C1 as stated: one poll tick moves this Installing
    model to Complete although its only tracker's currentStep is neither
    "complete" nor "error" (it is "Verifying installation..." with progress
    1.0, exactly the tracker state the go install runner exhibits while its
    external command runs: event 3 of its trace is that write, before the
    command at event 4). -/
theorem installingCompleteWithoutTerminalStep :
    update installingVerifySample Msg.progressTick
        = some (⟨["go"], [], 1, "complete", [("go", "install")],
            [("go", ⟨"go", 1, "Verifying installation...", 3, 0, ""⟩)]⟩, none)
    ∧ (∀ p ∈ installingVerifySample.languageProgress,
        p.2.currentStep ≠ "complete" ∧ p.2.currentStep ≠ "error")
    ∧ (installGoWithProgress none).1.get? 3
        = some (RunEvent.write (wStep 1 "Verifying installation..."))
    ∧ (installGoWithProgress none).1.get? 4 = some RunEvent.execCmd := by
  refine ⟨by decide, by decide, ?_, ?_⟩ <;> decide

/-- C1 amended: in the Installing state a poll tick transitions to Complete
    exactly when no tracker has progress < 1.0 with currentStep ≠ "error"
    (rather than when every tracker's currentStep is "complete" or
    "error"); in particular the orchestrator never transitions to Complete
    while some tracker has progress < 1.0 and currentStep ≠ "error". -/
theorem installingCompletionCondition :
    ∀ m : DownloadInstallModel, m.state = "installing" →
      ((update m Msg.progressTick = some ({ m with state := "complete" }, none))
        ↔ (∀ p ∈ m.languageProgress,
            ¬(p.2.progress < 1 ∧ p.2.currentStep ≠ "error")))
      ∧ ((∃ p ∈ m.languageProgress,
            p.2.progress < 1 ∧ p.2.currentStep ≠ "error") →
          update m Msg.progressTick = some (m, some Cmd.tick)) := by
  intro m _hst
  have hiff : tickAllComplete m.languageProgress = true
      ↔ (∀ p ∈ m.languageProgress,
          ¬(p.2.progress < 1 ∧ p.2.currentStep ≠ "error")) := by
    unfold tickAllComplete
    rw [List.all_eq_true]
    apply forall_congr'
    intro p
    apply imp_congr Iff.rfl
    constructor
    · intro h hc
      rcases hc with ⟨hlt, hne⟩
      simp at h
      rcases h with h | h
      · exact absurd hlt (not_lt.mpr h)
      · exact hne h
    · intro h
      simp
      by_cases hlt : p.2.progress < 1
      · right
        by_contra hne
        exact h ⟨hlt, hne⟩
      · left
        exact not_lt.mp hlt
  constructor
  · constructor
    · intro heq
      rw [← hiff]
      rcases Bool.eq_false_or_eq_true (tickAllComplete m.languageProgress) with ht | hf
      · exact ht
      · exfalso
        unfold update at heq
        rw [hf] at heq
        simp at heq
    · intro hall
      have ht : tickAllComplete m.languageProgress = true := hiff.mpr hall
      unfold update
      rw [ht]
      simp
  · intro ⟨p, hp, hcond⟩
    have hf : tickAllComplete m.languageProgress = false := by
      rcases Bool.eq_false_or_eq_true (tickAllComplete m.languageProgress) with ht | hf
      · exact absurd hcond (hiff.mp ht p hp)
      · exact hf
    unfold update
    rw [hf]
    simp

/-- Witness for C1 (amended) at the sample Installing model. -/
theorem installingCompletionConditionWitness :
    installingVerifySample.state = "installing"
    ∧ (((update installingVerifySample Msg.progressTick
          = some ({ installingVerifySample with state := "complete" }, none))
        ↔ (∀ p ∈ installingVerifySample.languageProgress,
            ¬(p.2.progress < 1 ∧ p.2.currentStep ≠ "error")))
      ∧ ((∃ p ∈ installingVerifySample.languageProgress,
            p.2.progress < 1 ∧ p.2.currentStep ≠ "error") →
          update installingVerifySample Msg.progressTick
            = some (installingVerifySample, some Cmd.tick))) :=
  ⟨rfl, installingCompletionCondition installingVerifySample rfl⟩

/-- The model produced by delivering the empty status map to a freshly
    constructed empty-selection model. -/
def promptingEmptyModel : DownloadInstallModel := ⟨[], [], 0, "prompting", [], []⟩

/-- C3 evaluated on the code (the claim is taken as the intent and the code
    as the bug): with selection [], the status message moves the model to
    "prompting", not to "complete", and every decision key handler then
    panics (none) on the out-of-range index selectedLanguages[0]; there is
    no transition that would take the empty selection to Complete. -/
theorem emptySelectionBehavior :
    update (NewDownloadInstallModel []) (Msg.installationStatus [])
        = some (promptingEmptyModel, none)
    ∧ promptingEmptyModel.state = "prompting"
    ∧ promptingEmptyModel.state ≠ "complete"
    ∧ update promptingEmptyModel (Msg.key "y") = none
    ∧ update promptingEmptyModel (Msg.key "enter") = none
    ∧ update promptingEmptyModel (Msg.key "n") = none
    ∧ update promptingEmptyModel (Msg.key "u") = none := by
  refine ⟨by decide, by decide, by decide, ?_, ?_, ?_, ?_⟩ <;> decide

/-- C9: once the model is Complete with every tracker terminal (currentStep
    "complete" or "error", or progress 1.0), any number of further poll
    ticks leaves the model unchanged: the state stays "complete", no
    tracker changes, and no transition is re-triggered (a tick either
    returns no command or only re-schedules the next tick). -/
theorem terminalPollIdempotent :
    ∀ m : DownloadInstallModel, m.state = "complete" →
    (∀ p ∈ m.languageProgress,
        p.2.currentStep = "complete" ∨ p.2.currentStep = "error"
          ∨ p.2.progress = 1) →
    (∀ n : Nat, tickStep^[n] m = m)
    ∧ (update m Msg.progressTick = some (m, none)
        ∨ update m Msg.progressTick = some (m, some Cmd.tick)) := by
  intro m hst _hterm
  have hone : ∀ m' : DownloadInstallModel, m'.state = "complete" →
      update m' Msg.progressTick = some (m', none)
        ∨ update m' Msg.progressTick = some (m', some Cmd.tick) := by
    intro m' hst'
    unfold update
    by_cases h : tickAllComplete m'.languageProgress
    · left
      rw [if_pos h]
      have : ({ m' with state := "complete" } : DownloadInstallModel) = m' := by
        cases m'
        simp_all
      rw [this]
    · right
      rw [if_neg h]
  have hfix : tickStep m = m := by
    unfold tickStep
    rcases hone m hst with h | h <;> rw [h]
  exact ⟨Function.iterate_fixed hfix, hone m hst⟩

/-- A concrete Complete model with one "complete" and one "error" tracker. -/
def completeSampleModel : DownloadInstallModel :=
  ⟨["go", "python"], [], 2, "complete",
   [("go", "install"), ("python", "install")],
   [("go", ⟨"go", 1, "complete", 3, 0, ""⟩),
    ("python", ⟨"python", 1/2, "error", 3, 0, "boom"⟩)]⟩

/-- Witness for C9 at the sample Complete model, iterating five ticks. -/
theorem terminalPollIdempotentWitness :
    completeSampleModel.state = "complete"
    ∧ (∀ p ∈ completeSampleModel.languageProgress,
        p.2.currentStep = "complete" ∨ p.2.currentStep = "error"
          ∨ p.2.progress = 1)
    ∧ tickStep^[5] completeSampleModel = completeSampleModel :=
  ⟨rfl, by decide,
    (terminalPollIdempotent completeSampleModel rfl (by decide)).1 5⟩

/-- The trackers installSelectedLanguagesWithProgress builds: one fresh
    tracker per language whose recorded choice is not "skip" (a language
    missing from the choices map reads as "", hence also gets a tracker). -/
def mkTrackers (languages : List String) (choices : List (String × String)) :
    List (String × LanguageProgress) :=
  languages.filterMap (fun l =>
    if lookupD choices l "" ≠ "skip" then some (l, initTracker l) else none)

/-- The whole system: the orchestrator model plus the asynchronous messages
    still in flight.  pendingCheck is the InstallationStatusMsg the Init
    command will deliver; pendingInit is the InitProgressMsg of a launched
    install batch; ticks counts scheduled ProgressTickMsg deliveries.
    ProgressUpdateMsg, InstallCompleteMsg and InstallErrorMsg are produced by
    nothing in this source and therefore never delivered in a run. -/
structure Sys where
  model : DownloadInstallModel
  pendingCheck : Bool
  pendingInit : Option (List (String × LanguageProgress))
  ticks : Nat

/-- The system at program start: the fresh model, with Init's
    checkInstalledLanguages command outstanding. -/
def initSys (sel : List String) : Sys :=
  ⟨NewDownloadInstallModel sel, true, none, 0⟩

/-- Effect of a command returned by Update on the pending pools: quit has no
    further effect here (modelling steps after a quit only enlarges the
    reachable set), installSelected builds the trackers and schedules the
    InitProgressMsg plus the first tick (the tea.Batch of
    installSelectedLanguagesWithProgress), tick schedules one tick. -/
def applyCmd (s : Sys) (c : Option Cmd) : Sys :=
  match c with
  | none => s
  | some Cmd.quit => s
  | some Cmd.tick => { s with ticks := s.ticks + 1 }
  | some (Cmd.installSelected langs choices) =>
      { s with pendingInit := some (mkTrackers langs choices),
               ticks := s.ticks + 1 }

/-- One step of the Bubble Tea loop or of a concurrent worker: a key press,
    the delivery of a pending asynchronous message, or a worker goroutine
    mutating tracker values (over-approximated as an arbitrary rewrite of
    the tracker pool it can reach).  A handler that panics admits no step. -/
inductive SysStep : Sys → Sys → Prop
  | key (s : Sys) (k : String) (m' : DownloadInstallModel) (c : Option Cmd) :
      update s.model (Msg.key k) = some (m', c) →
      SysStep s (applyCmd { s with model := m' } c)
  | status (s : Sys) (env : String → Option String)
      (m' : DownloadInstallModel) (c : Option Cmd) :
      s.pendingCheck = true →
      update s.model (Msg.installationStatus
          (checkInstalledLanguages s.model.selectedLanguages env))
        = some (m', c) →
      SysStep s (applyCmd { s with model := m', pendingCheck := false } c)
  | initProg (s : Sys) (tr : List (String × LanguageProgress))
      (m' : DownloadInstallModel) (c : Option Cmd) :
      s.pendingInit = some tr →
      update s.model (Msg.initProgress tr) = some (m', c) →
      SysStep s (applyCmd { s with model := m', pendingInit := none } c)
  | tick (s : Sys) (m' : DownloadInstallModel) (c : Option Cmd) :
      0 < s.ticks →
      update s.model Msg.progressTick = some (m', c) →
      SysStep s (applyCmd { s with model := m', ticks := s.ticks - 1 } c)
  | workerModel (s : Sys) (lp : List (String × LanguageProgress)) :
      SysStep s { s with model := { s.model with languageProgress := lp } }
  | workerInit (s : Sys) (tr lp : List (String × LanguageProgress)) :
      s.pendingInit = some tr →
      SysStep s { s with pendingInit := some lp }

/-- Reachability of a system state from the start with selection sel. -/
def Reach (sel : List String) (s : Sys) : Prop :=
  Relation.ReflTransGen SysStep (initSys sel) s

/-- applyCmd never touches the model. -/
theorem applyCmd_model (s : Sys) (c : Option Cmd) : (applyCmd s c).model = s.model := by
  cases c with
  | none => rfl
  | some c' => cases c' <;> rfl

/-- applyCmd never touches pendingCheck. -/
theorem applyCmd_pendingCheck (s : Sys) (c : Option Cmd) :
    (applyCmd s c).pendingCheck = s.pendingCheck := by
  cases c with
  | none => rfl
  | some c' => cases c' <;> rfl

/-- What the three prompting key handlers' shared tail does. -/
theorem recordChoice_spec (m : DownloadInstallModel) (lang choice : String)
    (m' : DownloadInstallModel) (c : Option Cmd)
    (h : recordChoice m lang choice = some (m', c)) :
    m'.selectedLanguages = m.selectedLanguages
    ∧ m'.installationStatus = m.installationStatus
    ∧ m'.languageProgress = m.languageProgress
    ∧ m'.userChoices = insertA m.userChoices lang choice
    ∧ m'.currentIndex = m.currentIndex + 1
    ∧ ((m.selectedLanguages.length ≤ m.currentIndex + 1
          ∧ m'.state = "installing"
          ∧ c = some (Cmd.installSelected m.selectedLanguages
              (insertA m.userChoices lang choice)))
      ∨ (m.currentIndex + 1 < m.selectedLanguages.length
          ∧ m'.state = m.state ∧ c = none)) := by
  unfold recordChoice at h
  by_cases hle : m.selectedLanguages.length ≤ m.currentIndex + 1
  · rw [if_pos hle] at h
    simp only [Option.some.injEq, Prod.mk.injEq] at h
    obtain ⟨hm, hc⟩ := h
    subst hm
    subst hc
    exact ⟨rfl, rfl, rfl, rfl, rfl, Or.inl ⟨hle, rfl, rfl⟩⟩
  · rw [if_neg hle] at h
    simp only [Option.some.injEq, Prod.mk.injEq] at h
    obtain ⟨hm, hc⟩ := h
    subst hm
    subst hc
    exact ⟨rfl, rfl, rfl, rfl, rfl, Or.inr ⟨by omega, rfl, rfl⟩⟩

/-- recordChoice always succeeds. -/
theorem recordChoice_isSome (m : DownloadInstallModel) (lang choice : String) :
    ∃ m' c, recordChoice m lang choice = some (m', c) := by
  unfold recordChoice
  by_cases hle : m.selectedLanguages.length ≤ m.currentIndex + 1
  · rw [if_pos hle]
    exact ⟨_, _, rfl⟩
  · rw [if_neg hle]
    exact ⟨_, _, rfl⟩

/-- Every successful key handling either leaves the model unchanged (with
    no command or a quit) or, in the prompting state, records a choice for
    the language under the cursor. -/
theorem handleKey_spec (m : DownloadInstallModel) (k : String)
    (m' : DownloadInstallModel) (c : Option Cmd)
    (h : handleKey m k = some (m', c)) :
    (m' = m ∧ (c = none ∨ c = some Cmd.quit))
    ∨ (m.state = "prompting" ∧ ∃ lang choice,
        m.selectedLanguages.get? m.currentIndex = some lang
        ∧ recordChoice m lang choice = some (m', c)) := by
  unfold handleKey at h
  by_cases hq : k = "ctrl+c" ∨ k = "q"
  · rw [if_pos hq] at h
    simp only [Option.some.injEq, Prod.mk.injEq] at h
    exact Or.inl ⟨h.1.symm, Or.inr h.2.symm⟩
  · rw [if_neg hq] at h
    by_cases hy : k = "y" ∨ k = "enter"
    · rw [if_pos hy] at h
      by_cases hst : m.state = "prompting"
      · rw [if_pos hst] at h
        rcases hget : m.selectedLanguages.get? m.currentIndex with _ | lang
        · rw [hget, Option.none_bind] at h
          exact absurd h (by simp)
        · rw [hget, Option.some_bind] at h
          rcases hsts : lookupA m.installationStatus lang with _ | st
          · rw [hsts, Option.none_bind] at h
            exact absurd h (by simp)
          · rw [hsts, Option.some_bind] at h
            exact Or.inr ⟨hst, lang, getDefaultChoice st, rfl, h⟩
      · rw [if_neg hst] at h
        simp only [Option.some.injEq, Prod.mk.injEq] at h
        exact Or.inl ⟨h.1.symm, Or.inl h.2.symm⟩
    · rw [if_neg hy] at h
      by_cases hn : k = "n"
      · rw [if_pos hn] at h
        by_cases hst : m.state = "prompting"
        · rw [if_pos hst] at h
          rcases hget : m.selectedLanguages.get? m.currentIndex with _ | lang
          · rw [hget, Option.none_bind] at h
            exact absurd h (by simp)
          · rw [hget, Option.some_bind] at h
            exact Or.inr ⟨hst, lang, "skip", rfl, h⟩
        · rw [if_neg hst] at h
          simp only [Option.some.injEq, Prod.mk.injEq] at h
          exact Or.inl ⟨h.1.symm, Or.inl h.2.symm⟩
      · rw [if_neg hn] at h
        by_cases hu : k = "u"
        · rw [if_pos hu] at h
          by_cases hst : m.state = "prompting"
          · rw [if_pos hst] at h
            rcases hget : m.selectedLanguages.get? m.currentIndex with _ | lang
            · rw [hget, Option.none_bind] at h
              exact absurd h (by simp)
            · rw [hget, Option.some_bind] at h
              exact Or.inr ⟨hst, lang, "update", rfl, h⟩
          · rw [if_neg hst] at h
            simp only [Option.some.injEq, Prod.mk.injEq] at h
            exact Or.inl ⟨h.1.symm, Or.inl h.2.symm⟩
        · rw [if_neg hu] at h
          simp only [Option.some.injEq, Prod.mk.injEq] at h
          exact Or.inl ⟨h.1.symm, Or.inl h.2.symm⟩

/-- A key that is new to the map is appended on the right by insertA. -/
theorem insertA_map_fst_of_not_mem {α : Type} (l : List (String × α)) (k : String)
    (v : α) (h : k ∉ l.map Prod.fst) :
    (insertA l k v).map Prod.fst = l.map Prod.fst ++ [k] := by
  induction l with
  | nil => simp [insertA]
  | cons p t ih =>
      obtain ⟨a, b⟩ := p
      simp only [List.map_cons, List.mem_cons] at h
      push_neg at h
      obtain ⟨h1, h2⟩ := h
      simp [insertA, Ne.symm h1, ih h2]

/-- In a duplicate-free list the element at index i does not occur among the
    first i elements. -/
theorem get_not_mem_take : ∀ (l : List String) (i : Nat) (h : i < l.length),
    l.Nodup → l.get ⟨i, h⟩ ∉ l.take i := by
  intro l
  induction l with
  | nil => intro i h _; simp at h
  | cons a t ih =>
      intro i h hnd
      rcases List.nodup_cons.mp hnd with ⟨ha, hnt⟩
      cases i with
      | zero => simp
      | succ j =>
          have hj : j < t.length := by simpa using h
          intro hmem
          rw [List.take_succ_cons] at hmem
          have hgt : (a :: t).get ⟨j + 1, h⟩ = t.get ⟨j, hj⟩ := rfl
          rw [hgt] at hmem
          rcases List.mem_cons.mp hmem with heq | hmem'
          · exact ha (heq ▸ List.get_mem t j hj)
          · exact ih j hj hnt hmem'

/-- The run invariant: the selection is fixed; the state is one of the four
    state strings; an outstanding status message implies the Checking state;
    in Checking nothing has been recorded; in Prompting the cursor is in
    bounds for a non-empty selection and the recorded choices are exactly
    the selection prefix before the cursor; ticks or a pending init message
    exist only from Installing on. -/
structure SysInv (sel : List String) (s : Sys) : Prop where
  selEq : s.model.selectedLanguages = sel
  stateMem : s.model.state = "checking" ∨ s.model.state = "prompting"
      ∨ s.model.state = "installing" ∨ s.model.state = "complete"
  checkPending : s.pendingCheck = true → s.model.state = "checking"
  checkingFresh : s.model.state = "checking" →
      s.model.currentIndex = 0 ∧ s.model.userChoices = []
  promptIdx : s.model.state = "prompting" → sel ≠ [] →
      s.model.currentIndex < sel.length
  promptChoices : s.model.state = "prompting" → sel.Nodup →
      s.model.userChoices.map Prod.fst = sel.take s.model.currentIndex
  asyncState : 0 < s.ticks ∨ s.pendingInit ≠ none →
      s.model.state = "installing" ∨ s.model.state = "complete"

/-- The initial system satisfies the invariant. -/
theorem sysInv_init (sel : List String) : SysInv sel (initSys sel) := by
  refine SysInv.mk rfl (Or.inl rfl) (fun _ => rfl) (fun _ => And.intro rfl rfl) ?_ ?_ ?_
  · intro h _
    simp [initSys, NewDownloadInstallModel] at h
  · intro h _
    simp [initSys, NewDownloadInstallModel] at h
  · intro h
    rcases h with h | h
    · simp [initSys] at h
    · exact absurd rfl h

/-- Every step preserves the invariant. -/
theorem sysInv_step (sel : List String) (s s' : Sys) (hinv : SysInv sel s)
    (hstep : SysStep s s') : SysInv sel s' := by
  cases hstep with
  | key k m' c hupd =>
      rcases handleKey_spec s.model k m' c hupd with ⟨rfl, hc⟩ |
        ⟨hst, lang, choice, hget, hrec⟩
      · rcases hc with rfl | rfl
        · exact hinv
        · exact hinv
      · rcases recordChoice_spec s.model lang choice m' c hrec with
          ⟨hsel, _hstat, _hlp, huc, hidx, hbr⟩
        have hilen : s.model.currentIndex < sel.length := by
          have h1 : sel.get? s.model.currentIndex = some lang := by
            rw [← hinv.selEq]; exact hget
          have h2 := List.get?_eq_some.mp h1
          exact h2.1
        rcases hbr with ⟨_hle, hstate, rfl⟩ | ⟨hlt, hstate, rfl⟩
        · refine ⟨?_, ?_, ?_, ?_, ?_, ?_, ?_⟩ <;> dsimp only [applyCmd]
          · exact hsel.trans hinv.selEq
          · exact Or.inr (Or.inr (Or.inl hstate))
          · intro hp
            have h1 := hinv.checkPending hp
            rw [hst] at h1
            exact absurd h1 (by decide)
          · intro h
            rw [hstate] at h
            exact absurd h (by decide)
          · intro h
            rw [hstate] at h
            exact absurd h (by decide)
          · intro h
            rw [hstate] at h
            exact absurd h (by decide)
          · intro _
            exact Or.inl hstate
        · refine ⟨?_, ?_, ?_, ?_, ?_, ?_, ?_⟩ <;> dsimp only [applyCmd]
          · exact hsel.trans hinv.selEq
          · exact Or.inr (Or.inl (hstate.trans hst))
          · intro hp
            have h1 := hinv.checkPending hp
            rw [hst] at h1
            exact absurd h1 (by decide)
          · intro h
            rw [hstate.trans hst] at h
            exact absurd h (by decide)
          · intro _ _
            rw [hidx, hinv.selEq] at *
            omega
          · intro _ hnd
            have hold := hinv.promptChoices hst hnd
            have h1 : sel.get? s.model.currentIndex = some lang := by
              rw [← hinv.selEq]; exact hget
            obtain ⟨hlen, hgeteq⟩ := List.get?_eq_some.mp h1
            have hnotmem : lang ∉ s.model.userChoices.map Prod.fst := by
              rw [hold]
              rw [← hgeteq]
              exact get_not_mem_take sel s.model.currentIndex hlen hnd
            rw [huc, hidx, insertA_map_fst_of_not_mem _ _ _ hnotmem, hold,
              List.take_succ]
            have hge : sel[s.model.currentIndex]? = some lang := by
              rw [← List.get?_eq_getElem?]
              exact h1
            rw [hge]
            rfl
          · intro h
            have h2 := hinv.asyncState h
            rcases h2 with h2 | h2 <;> rw [hst] at h2 <;> exact absurd h2 (by decide)
  | status env m' c hpc hupd =>
      simp only [update, Option.some.injEq, Prod.mk.injEq] at hupd
      obtain ⟨hm, hc⟩ := hupd
      subst hm
      subst hc
      have hsck := hinv.checkPending hpc
      obtain ⟨hidx0, huc0⟩ := hinv.checkingFresh hsck
      refine ⟨?_, ?_, ?_, ?_, ?_, ?_, ?_⟩ <;> dsimp only [applyCmd]
      · exact hinv.selEq
      · exact Or.inr (Or.inl rfl)
      · intro hp
        exact absurd hp (by decide)
      · intro h
        exact absurd h (by decide)
      · intro _ hne
        show s.model.currentIndex < sel.length
        rw [hidx0]
        exact List.length_pos.mpr hne
      · intro _ _
        show s.model.userChoices.map Prod.fst = sel.take s.model.currentIndex
        rw [hidx0, huc0]
        simp
      · intro h
        have h2 := hinv.asyncState h
        rcases h2 with h2 | h2 <;> rw [hsck] at h2 <;> exact absurd h2 (by decide)
  | initProg tr m' c hpi hupd =>
      simp only [update, Option.some.injEq, Prod.mk.injEq] at hupd
      obtain ⟨hm, hc⟩ := hupd
      subst hm
      subst hc
      have hold : s.model.state = "installing" ∨ s.model.state = "complete" :=
        hinv.asyncState (Or.inr (by rw [hpi]; exact Option.some_ne_none tr))
      refine ⟨?_, ?_, ?_, ?_, ?_, ?_, ?_⟩ <;> dsimp only [applyCmd]
      · exact hinv.selEq
      · exact Or.inr (Or.inr hold)
      · intro hp
        have h1 := hinv.checkPending hp
        rcases hold with h2 | h2 <;> rw [h1] at h2 <;> exact absurd h2 (by decide)
      · intro h
        show s.model.currentIndex = 0 ∧ s.model.userChoices = []
        rcases hold with h2 | h2 <;> rw [h] at h2 <;> exact absurd h2 (by decide)
      · intro h _
        rcases hold with h2 | h2 <;> rw [h] at h2 <;> exact absurd h2 (by decide)
      · intro h _
        rcases hold with h2 | h2 <;> rw [h] at h2 <;> exact absurd h2 (by decide)
      · intro _
        exact hold
  | tick m' c hticks hupd =>
      have hold := hinv.asyncState (Or.inl hticks)
      unfold update at hupd
      by_cases hac : tickAllComplete s.model.languageProgress
      · rw [if_pos hac] at hupd
        simp only [Option.some.injEq, Prod.mk.injEq] at hupd
        obtain ⟨hm, hc⟩ := hupd
        subst hm
        subst hc
        refine ⟨hinv.selEq, Or.inr (Or.inr (Or.inr rfl)), ?_, ?_, ?_, ?_,
          fun _ => Or.inr rfl⟩
        · intro hp
          have h1 := hinv.checkPending hp
          rcases hold with h2 | h2 <;> rw [h1] at h2 <;> exact absurd h2 (by decide)
        · intro h
          exact absurd h (show ¬("complete" = "checking") by decide)
        · intro h
          exact absurd h (show ¬("complete" = "prompting") by decide)
        · intro h
          exact absurd h (show ¬("complete" = "prompting") by decide)
      · rw [if_neg hac] at hupd
        simp only [Option.some.injEq, Prod.mk.injEq] at hupd
        obtain ⟨hm, hc⟩ := hupd
        subst hm
        subst hc
        exact ⟨hinv.selEq, hinv.stateMem, hinv.checkPending, hinv.checkingFresh,
          hinv.promptIdx, hinv.promptChoices, fun _ => hold⟩
  | workerModel lp =>
      exact ⟨hinv.selEq, hinv.stateMem, hinv.checkPending, hinv.checkingFresh,
        hinv.promptIdx, hinv.promptChoices, hinv.asyncState⟩
  | workerInit tr lp hpi =>
      refine ⟨hinv.selEq, hinv.stateMem, hinv.checkPending, hinv.checkingFresh,
        hinv.promptIdx, hinv.promptChoices, ?_⟩
      intro _
      exact hinv.asyncState (Or.inr (by rw [hpi]; exact Option.some_ne_none tr))

/-- The invariant holds in every reachable system state. -/
theorem sysInv_reach (sel : List String) (s : Sys) (h : Reach sel s) :
    SysInv sel s := by
  induction h with
  | refl => exact sysInv_init sel
  | tail _ hbc ih => exact sysInv_step sel _ _ ih hbc

/-- Position of a state string in the Checking, Prompting, Installing,
    Complete order. -/
def stateRank (st : String) : Nat :=
  if st = "checking" then 0
  else if st = "prompting" then 1
  else if st = "installing" then 2
  else if st = "complete" then 3
  else 4

/-- Along any reachable step the state either stays put or advances to the
    immediately next state of the linear order. -/
theorem step_state_order (sel : List String) (s s' : Sys) (hre : Reach sel s)
    (hstep : SysStep s s') :
    s'.model.state = s.model.state
    ∨ stateRank s'.model.state = stateRank s.model.state + 1 := by
  have hinv := sysInv_reach sel s hre
  cases hstep with
  | key k m' c hupd =>
      rcases handleKey_spec s.model k m' c hupd with ⟨rfl, hc⟩ |
        ⟨hst, lang, choice, hget, hrec⟩
      · rcases hc with rfl | rfl <;> exact Or.inl rfl
      · obtain ⟨_, _, _, _, _, hbr⟩ := recordChoice_spec s.model lang choice m' c hrec
        rcases hbr with ⟨_, hstate, rfl⟩ | ⟨_, hstate, rfl⟩
        · right
          dsimp only [applyCmd]
          rw [hstate, hst]
          decide
        · left
          dsimp only [applyCmd]
          exact hstate.trans hst |>.trans hst.symm ▸ hstate
  | status env m' c hpc hupd =>
      have hck := hinv.checkPending hpc
      simp only [update, Option.some.injEq, Prod.mk.injEq] at hupd
      obtain ⟨hm, hc⟩ := hupd
      subst hm
      subst hc
      right
      dsimp only [applyCmd]
      rw [hck]
      decide
  | initProg tr m' c hpi hupd =>
      simp only [update, Option.some.injEq, Prod.mk.injEq] at hupd
      obtain ⟨hm, hc⟩ := hupd
      subst hm
      subst hc
      exact Or.inl rfl
  | tick m' c hticks hupd =>
      have hold := hinv.asyncState (Or.inl hticks)
      unfold update at hupd
      by_cases hac : tickAllComplete s.model.languageProgress
      · rw [if_pos hac] at hupd
        simp only [Option.some.injEq, Prod.mk.injEq] at hupd
        obtain ⟨hm, hc⟩ := hupd
        subst hm
        subst hc
        rcases hold with h2 | h2
        · right
          dsimp only [applyCmd]
          rw [h2]
          decide
        · left
          dsimp only [applyCmd]
          exact h2.symm
      · rw [if_neg hac] at hupd
        simp only [Option.some.injEq, Prod.mk.injEq] at hupd
        obtain ⟨hm, hc⟩ := hupd
        subst hm
        subst hc
        exact Or.inl rfl
  | workerModel lp => exact Or.inl rfl
  | workerInit tr lp hpi => exact Or.inl rfl

/-- The key "n" in prompting with the cursor in bounds runs recordChoice
    with the choice "skip". -/
theorem update_key_n (m : DownloadInstallModel) (lang : String)
    (hst : m.state = "prompting")
    (hget : m.selectedLanguages.get? m.currentIndex = some lang) :
    update m (Msg.key "n") = recordChoice m lang "skip" := by
  show handleKey m "n" = _
  unfold handleKey
  rw [if_neg (show ¬(("n" : String) = "ctrl+c" ∨ ("n" : String) = "q") by decide),
     if_neg (show ¬(("n" : String) = "y" ∨ ("n" : String) = "enter") by decide),
     if_pos (show ("n" : String) = "n" from rfl), if_pos hst, hget,
     Option.some_bind]

/-- Pressing "n" for every remaining prompt reaches Installing with a tick
    scheduled and the tracker pool untouched. -/
theorem pressN_run : ∀ (j : Nat) (s : Sys),
    s.model.state = "prompting" →
    s.model.currentIndex + j = s.model.selectedLanguages.length →
    0 < j →
    ∃ s' : Sys, Relation.ReflTransGen SysStep s s'
      ∧ s'.model.state = "installing"
      ∧ 0 < s'.ticks
      ∧ s'.model.languageProgress = s.model.languageProgress := by
  intro j
  induction j with
  | zero =>
      intro s _ _ h0
      omega
  | succ j ih =>
      intro s hst hlen _
      have hi : s.model.currentIndex < s.model.selectedLanguages.length := by omega
      obtain ⟨lang, hget⟩ : ∃ lang,
          s.model.selectedLanguages.get? s.model.currentIndex = some lang :=
        ⟨_, List.get?_eq_get hi⟩
      have hupdn := update_key_n s.model lang hst hget
      obtain ⟨m', c, hrc⟩ := recordChoice_isSome s.model lang "skip"
      obtain ⟨hsel, _, hlp, _, hidx, hbr⟩ :=
        recordChoice_spec s.model lang "skip" m' c hrc
      have hstep : SysStep s (applyCmd { s with model := m' } c) :=
        SysStep.key s "n" m' c (hupdn.trans hrc)
      rcases hbr with ⟨_, hstate, rfl⟩ | ⟨hlt, hstate, rfl⟩
      · refine ⟨applyCmd { s with model := m' } _,
          Relation.ReflTransGen.single hstep, ?_, ?_, ?_⟩
        · dsimp only [applyCmd]
          exact hstate
        · dsimp only [applyCmd]
          omega
        · dsimp only [applyCmd]
          exact hlp
      · obtain ⟨s', hr, h1, h2, h3⟩ := ih { s with model := m' }
          (hstate.trans hst)
          (by
            show m'.currentIndex + j = m'.selectedLanguages.length
            rw [hidx, hsel]
            omega)
          (by
            rw [hidx, hsel] at *
            omega)
        exact ⟨s', Relation.ReflTransGen.head hstep hr, h1, h2, h3.trans hlp⟩

/-- For every non-empty selection there is a run that ends in Complete:
    deliver the probe results, skip every prompt, then let the first poll
    tick (scheduled by the installing transition, with the tracker pool
    still empty) find every tracker terminal. -/
theorem run_completes (sel : List String) (hne : sel ≠ []) :
    ∃ s : Sys, Reach sel s ∧ s.model.state = "complete" := by
  have hstep0 : SysStep (initSys sel)
      (⟨⟨sel, checkInstalledLanguages sel (fun _ => none), 0, "prompting", [], []⟩,
        false, none, 0⟩ : Sys) :=
    SysStep.status (initSys sel) (fun _ => none) _ _ rfl rfl
  obtain ⟨s2, hr12, hst2, hticks2, hlp2⟩ := pressN_run sel.length
    (⟨⟨sel, checkInstalledLanguages sel (fun _ => none), 0, "prompting", [], []⟩,
      false, none, 0⟩ : Sys)
    rfl (by simp) (List.length_pos.mpr hne)
  have hac : tickAllComplete s2.model.languageProgress = true := by
    rw [hlp2]
    rfl
  have hupd2 : update s2.model Msg.progressTick
      = some ({ s2.model with state := "complete" }, none) := by
    unfold update
    rw [if_pos hac]
  have hstep2 : SysStep s2
      (applyCmd { s2 with
          model := { s2.model with state := "complete" },
          ticks := s2.ticks - 1 } none) :=
    SysStep.tick s2 _ _ hticks2 hupd2
  exact ⟨_, Relation.ReflTransGen.head hstep0 (hr12.tail hstep2), rfl⟩

/-- C2: along every run the orchestrator's state either stays put or moves
    to the immediately next state of Checking, Prompting, Installing,
    Complete — hence there is no skipped state, no backward transition and
    no re-entry into a left state (a state's rank never repeats after
    increasing); and for every non-empty selection some run reaches
    Complete, which by the first part passes through all four states
    exactly once. -/
theorem orchestratorStateOrder :
    (∀ (sel : List String) (s s' : Sys), Reach sel s → SysStep s s' →
        s'.model.state = s.model.state
        ∨ stateRank s'.model.state = stateRank s.model.state + 1)
    ∧ (∀ sel : List String, sel ≠ [] →
        ∃ s : Sys, Reach sel s ∧ s.model.state = "complete") :=
  ⟨step_state_order, run_completes⟩

def sysW0 : Sys := initSys ["go"]

def sysW1 : Sys :=
  ⟨⟨["go"], checkInstalledLanguages ["go"] (fun _ => none), 0, "prompting", [], []⟩,
   false, none, 0⟩

/-- Witness for C2: a concrete first step (status delivery for ["go"]) obeys
    the order, and the selection ["go"] has a completing run. -/
theorem orchestratorStateOrderWitness :
    ((["go"] : List String) ≠ [])
    ∧ (sysW1.model.state = sysW0.model.state
        ∨ stateRank sysW1.model.state = stateRank sysW0.model.state + 1)
    ∧ (∃ s : Sys, Reach ["go"] s ∧ s.model.state = "complete") :=
  ⟨by decide,
   orchestratorStateOrder.1 ["go"] sysW0 sysW1 Relation.ReflTransGen.refl
     (SysStep.status sysW0 (fun _ => none) _ _ rfl rfl),
   orchestratorStateOrder.2 ["go"] (by decide)⟩

/-- Every recognized prompting key runs recordChoice at the cursor with the
    choice that key stands for ("skip" for n, "update" for u, the computed
    default for y/enter, read from the status map entry). -/
theorem key_prompting_record (m : DownloadInstallModel) (k : String)
    (m' : DownloadInstallModel) (c : Option Cmd)
    (hst : m.state = "prompting")
    (hk : k = "y" ∨ k = "enter" ∨ k = "n" ∨ k = "u")
    (h : update m (Msg.key k) = some (m', c)) :
    ∃ lang choice, m.selectedLanguages.get? m.currentIndex = some lang
      ∧ recordChoice m lang choice = some (m', c)
      ∧ (k = "n" → choice = "skip")
      ∧ (k = "u" → choice = "update")
      ∧ ((k = "y" ∨ k = "enter") →
          ∃ st, lookupA m.installationStatus lang = some st
            ∧ choice = getDefaultChoice st) := by
  have h' : handleKey m k = some (m', c) := h
  unfold handleKey at h'
  rcases hk with rfl | rfl | rfl | rfl
  · rw [if_neg (show ¬(("y" : String) = "ctrl+c" ∨ ("y" : String) = "q") by decide),
       if_pos (show (("y" : String) = "y" ∨ ("y" : String) = "enter") by decide),
       if_pos hst] at h'
    rcases hget : m.selectedLanguages.get? m.currentIndex with _ | lang
    · rw [hget, Option.none_bind] at h'
      exact absurd h' (by simp)
    · rw [hget, Option.some_bind] at h'
      rcases hsts : lookupA m.installationStatus lang with _ | st
      · rw [hsts, Option.none_bind] at h'
        exact absurd h' (by simp)
      · rw [hsts, Option.some_bind] at h'
        exact ⟨lang, getDefaultChoice st, rfl, h',
          fun hw => absurd hw (by decide), fun hw => absurd hw (by decide),
          fun _ => ⟨st, hsts, rfl⟩⟩
  · rw [if_neg (show ¬(("enter" : String) = "ctrl+c" ∨ ("enter" : String) = "q") by decide),
       if_pos (show (("enter" : String) = "y" ∨ ("enter" : String) = "enter") by decide),
       if_pos hst] at h'
    rcases hget : m.selectedLanguages.get? m.currentIndex with _ | lang
    · rw [hget, Option.none_bind] at h'
      exact absurd h' (by simp)
    · rw [hget, Option.some_bind] at h'
      rcases hsts : lookupA m.installationStatus lang with _ | st
      · rw [hsts, Option.none_bind] at h'
        exact absurd h' (by simp)
      · rw [hsts, Option.some_bind] at h'
        exact ⟨lang, getDefaultChoice st, rfl, h',
          fun hw => absurd hw (by decide), fun hw => absurd hw (by decide),
          fun _ => ⟨st, hsts, rfl⟩⟩
  · rw [if_neg (show ¬(("n" : String) = "ctrl+c" ∨ ("n" : String) = "q") by decide),
       if_neg (show ¬(("n" : String) = "y" ∨ ("n" : String) = "enter") by decide),
       if_pos (show ("n" : String) = "n" from rfl), if_pos hst] at h'
    rcases hget : m.selectedLanguages.get? m.currentIndex with _ | lang
    · rw [hget, Option.none_bind] at h'
      exact absurd h' (by simp)
    · rw [hget, Option.some_bind] at h'
      exact ⟨lang, "skip", rfl, h', fun _ => rfl,
        fun hw => absurd hw (by decide), fun hw => absurd hw (by decide)⟩
  · rw [if_neg (show ¬(("u" : String) = "ctrl+c" ∨ ("u" : String) = "q") by decide),
       if_neg (show ¬(("u" : String) = "y" ∨ ("u" : String) = "enter") by decide),
       if_neg (show ¬(("u" : String) = "n") by decide),
       if_pos (show ("u" : String) = "u" from rfl), if_pos hst] at h'
    rcases hget : m.selectedLanguages.get? m.currentIndex with _ | lang
    · rw [hget, Option.none_bind] at h'
      exact absurd h' (by simp)
    · rw [hget, Option.some_bind] at h'
      exact ⟨lang, "update", rfl, h', fun hw => absurd hw (by decide),
        fun _ => rfl, fun hw => absurd hw (by decide)⟩

/-- C7: during Prompting each recognized input records exactly one decision,
    namely for the item under the cursor (skip for n, update for u, the
    computed default for y/enter), and advances the cursor by exactly one;
    and in every reachable prompting state the recorded decisions are
    exactly the selection items before the cursor, in selection order — so
    the decision for selection[i] is recorded before selection[i+1] is
    prompted. -/
theorem promptingDecisionOrder :
    (∀ (m m' : DownloadInstallModel) (c : Option Cmd) (k : String),
        m.state = "prompting" → (k = "y" ∨ k = "enter" ∨ k = "n" ∨ k = "u") →
        update m (Msg.key k) = some (m', c) →
        ∃ lang choice,
          m.selectedLanguages.get? m.currentIndex = some lang
          ∧ m'.userChoices = insertA m.userChoices lang choice
          ∧ m'.currentIndex = m.currentIndex + 1
          ∧ (k = "n" → choice = "skip")
          ∧ (k = "u" → choice = "update")
          ∧ ((k = "y" ∨ k = "enter") →
              ∃ st, lookupA m.installationStatus lang = some st
                ∧ choice = getDefaultChoice st))
    ∧ (∀ (sel : List String) (s : Sys), Reach sel s → sel.Nodup →
        s.model.state = "prompting" →
        s.model.userChoices.map Prod.fst = sel.take s.model.currentIndex) := by
  constructor
  · intro m m' c k hst hk h
    obtain ⟨lang, choice, hget, hrec, hn, hu, hy⟩ :=
      key_prompting_record m k m' c hst hk h
    obtain ⟨_, _, _, huc, hidx, _⟩ := recordChoice_spec m lang choice m' c hrec
    exact ⟨lang, choice, hget, huc, hidx, hn, hu, hy⟩
  · intro sel s hre hnd hst
    exact (sysInv_reach sel s hre).promptChoices hst hnd

/-- A concrete prompting model for one selected language. -/
def promptingGoSample : DownloadInstallModel :=
  ⟨["go"], [("go", ⟨"go", false, "", "1.25.5", ""⟩)], 0, "prompting", [], []⟩

/-- Witness for C7: pressing "n" on the sample records skip for "go" and
    advances the cursor; and in the reachable prompting state for ["go"]
    the recorded choices are the selection prefix before the cursor. -/
theorem promptingDecisionOrderWitness :
    promptingGoSample.state = "prompting"
    ∧ (("n" : String) = "y" ∨ ("n" : String) = "enter"
        ∨ ("n" : String) = "n" ∨ ("n" : String) = "u")
    ∧ update promptingGoSample (Msg.key "n")
        = some (⟨["go"], [("go", ⟨"go", false, "", "1.25.5", ""⟩)], 1,
            "installing", [("go", "skip")], []⟩,
           some (Cmd.installSelected ["go"] [("go", "skip")]))
    ∧ (∃ lang choice,
        promptingGoSample.selectedLanguages.get? promptingGoSample.currentIndex
            = some lang
        ∧ (⟨["go"], [("go", ⟨"go", false, "", "1.25.5", ""⟩)], 1,
            "installing", [("go", "skip")], []⟩ :
              DownloadInstallModel).userChoices
            = insertA promptingGoSample.userChoices lang choice
        ∧ (⟨["go"], [("go", ⟨"go", false, "", "1.25.5", ""⟩)], 1,
            "installing", [("go", "skip")], []⟩ :
              DownloadInstallModel).currentIndex
            = promptingGoSample.currentIndex + 1
        ∧ (("n" : String) = "n" → choice = "skip")
        ∧ (("n" : String) = "u" → choice = "update")
        ∧ ((("n" : String) = "y" ∨ ("n" : String) = "enter") →
            ∃ st, lookupA promptingGoSample.installationStatus lang = some st
              ∧ choice = getDefaultChoice st))
    ∧ sysW1.model.userChoices.map Prod.fst
        = (["go"] : List String).take sysW1.model.currentIndex :=
  ⟨rfl, by decide, by decide,
   promptingDecisionOrder.1 promptingGoSample
     ⟨["go"], [("go", ⟨"go", false, "", "1.25.5", ""⟩)], 1, "installing",
      [("go", "skip")], []⟩
     (some (Cmd.installSelected ["go"] [("go", "skip")])) "n" rfl (by decide)
     (by decide),
   promptingDecisionOrder.2 ["go"] sysW1
     (Relation.ReflTransGen.single
       (SysStep.status sysW0 (fun _ => none) _ _ rfl rfl))
     (by decide) rfl⟩

/-- The reachable prompting system for the empty selection. -/
def emptyPromptSys : Sys :=
  ⟨⟨[], checkInstalledLanguages [] (fun _ => none), 0, "prompting", [], []⟩,
   false, none, 0⟩

/-- C10: in every reachable prompting state of a non-empty selection the
    cursor is strictly below the selection length, so the index accesses of
    the y/enter, n and u handlers are in bounds (the cursor item exists);
    the handler that moves the cursor to the length leaves prompting for
    installing in the same step; and the non-emptiness is essential: for
    the empty selection the model still reaches prompting, where each of
    these handlers panics (none) on the out-of-range index access. -/
theorem promptingIndexSafety :
    (∀ (sel : List String) (s : Sys), Reach sel s →
        s.model.state = "prompting" → sel ≠ [] →
        s.model.currentIndex < s.model.selectedLanguages.length)
    ∧ (∀ (m m' : DownloadInstallModel) (c : Option Cmd) (k : String),
        m.state = "prompting" → (k = "y" ∨ k = "enter" ∨ k = "n" ∨ k = "u") →
        update m (Msg.key k) = some (m', c) →
        m.currentIndex < m.selectedLanguages.length
        ∧ (m'.currentIndex = m.selectedLanguages.length → m'.state = "installing"))
    ∧ (∃ s : Sys, Reach ([] : List String) s ∧ s.model.state = "prompting"
        ∧ update s.model (Msg.key "y") = none
        ∧ update s.model (Msg.key "enter") = none
        ∧ update s.model (Msg.key "n") = none
        ∧ update s.model (Msg.key "u") = none) := by
  refine ⟨?_, ?_, ?_⟩
  · intro sel s hre hst hne
    have hinv := sysInv_reach sel s hre
    rw [hinv.selEq]
    exact hinv.promptIdx hst hne
  · intro m m' c k hst hk h
    obtain ⟨lang, choice, hget, hrec, _, _, _⟩ :=
      key_prompting_record m k m' c hst hk h
    obtain ⟨hlen, _⟩ := List.get?_eq_some.mp hget
    obtain ⟨_, _, _, _, hidx, hbr⟩ := recordChoice_spec m lang choice m' c hrec
    refine ⟨hlen, ?_⟩
    intro hend
    rcases hbr with ⟨_, hstate, _⟩ | ⟨hlt, _, _⟩
    · exact hstate
    · rw [hidx] at hend
      omega
  · refine ⟨emptyPromptSys, ?_, rfl, by decide, by decide, by decide, by decide⟩
    exact Relation.ReflTransGen.single
      (SysStep.status (initSys []) (fun _ => none) _ _ rfl rfl)

/-- Witness for C10 at the reachable prompting system for ["go"], plus the
    in-bounds and same-step-transition facts for a concrete "n" press. -/
theorem promptingIndexSafetyWitness :
    sysW1.model.state = "prompting"
    ∧ ((["go"] : List String) ≠ [])
    ∧ sysW1.model.currentIndex < sysW1.model.selectedLanguages.length
    ∧ (promptingGoSample.currentIndex < promptingGoSample.selectedLanguages.length
        ∧ ((⟨["go"], [("go", ⟨"go", false, "", "1.25.5", ""⟩)], 1,
            "installing", [("go", "skip")], []⟩ :
              DownloadInstallModel).currentIndex
              = promptingGoSample.selectedLanguages.length →
            (⟨["go"], [("go", ⟨"go", false, "", "1.25.5", ""⟩)], 1,
              "installing", [("go", "skip")], []⟩ :
                DownloadInstallModel).state = "installing")) :=
  ⟨rfl, by decide,
   promptingIndexSafety.1 ["go"] sysW1
     (Relation.ReflTransGen.single
       (SysStep.status sysW0 (fun _ => none) _ _ rfl rfl))
     rfl (by decide),
   promptingIndexSafety.2.1 promptingGoSample
     ⟨["go"], [("go", ⟨"go", false, "", "1.25.5", ""⟩)], 1, "installing",
      [("go", "skip")], []⟩
     (some (Cmd.installSelected ["go"] [("go", "skip")])) "n" rfl (by decide)
     (by decide)⟩
